import Mathlib

/- Shallow embedding of the BrowseMate context-compilation core: the
   relevance extractor pickRelevantSnippets and its helpers (README-embedded
   gemini.js variant, lines 615-662), the two message compilers
   compileMessagesForGemini (src/gemini.js lines 36-80 and the query-aware
   README variant, lines 664-706), and parseGeminiResponse (src/gemini.js
   lines 184-213).  JS strings are embedded as lists of characters;
   String.prototype.slice / indexOf / toLowerCase become the corresponding
   list operations, JS objects become structures with Option fields for
   possibly-absent members, and || / truthiness on string fields is made
   explicit. -/

/-- JS strings are modelled as lists of characters. -/
abbrev Str := List Char

/-- View of a Lean string literal as the embedding type. -/
def str (s : String) : Str := s.data

/-- JS s.slice(a, b) for 0 ≤ a ≤ b positions (clamped; empty when b ≤ a). -/
def jsSlice (l : Str) (a b : Nat) : Str := (l.drop a).take (b - a)

/-- JS arr.slice(-n): the last n elements (all of them when there are fewer). -/
def lastN (n : Nat) (l : List α) : List α := l.drop (l.length - n)

/-- JS v || d on an optional string field: an absent field and the empty
    string are both falsy. -/
def jsOr (v : Option Str) (d : Str) : Str :=
  match v with
  | none => d
  | some s => if s = [] then d else s

/-- JS truthiness of an optional string field. -/
def truthy (v : Option Str) : Bool :=
  match v with
  | none => false
  | some s => decide (s ≠ [])

/-! The term tokenizer: query.toLowerCase().match(/\b[\w.-]{3,}\b/g) || []. -/

/-- JS regex \w: the ASCII word characters [A-Za-z0-9_]. -/
def isWordChar (c : Char) : Bool := c.isUpper || c.isLower || c.isDigit || c = '_'

/-- The regex character class [\w.-]. -/
def isClassChar (c : Char) : Bool := isWordChar c || c = '.' || c = '-'

/-- Wordness of the character at position i (false beyond the string). -/
def wordAt (s : Str) (i : Nat) : Bool :=
  match s[i]? with
  | some c => isWordChar c
  | none => false

/-- JS regex word boundary \b at position i of s: the wordness of the
    character before i differs from the wordness of the character at i. -/
def isBoundary (s : Str) (i : Nat) : Bool :=
  (if i = 0 then false else wordAt s (i - 1)) != wordAt s i

/-- Length of the longest run of class characters at the head of l. -/
def countLeadingClass : Str → Nat
  | [] => 0
  | c :: r => if isClassChar c then countLeadingClass r + 1 else 0

/-- Backtracking search for the closing word boundary, longest first: the
    largest end position j in [p+3, p+3+k] with a boundary at j. -/
def findEndDown (s : Str) (p : Nat) : Nat → Option Nat
  | 0 => if isBoundary s (p + 3) then some (p + 3) else none
  | k + 1 =>
    if isBoundary s (p + 3 + (k + 1)) then some (p + 3 + (k + 1))
    else findEndDown s p k

/-- One attempt of /\b[\w.-]{3,}\b/ anchored at position p: the end of the
    match there, or none. -/
def tryMatchAt (s : Str) (p : Nat) : Option Nat :=
  if isBoundary s p then
    if countLeadingClass (s.drop p) < 3 then none
    else findEndDown s p (countLeadingClass (s.drop p) - 3)
  else none

/-- Global regex scan from position p: leftmost matches, resuming right
    after each match, as String.prototype.match with the g flag.  The fuel
    argument bounds the recursion; s.length + 1 steps always suffice since
    the position strictly increases. -/
def scanTokens (s : Str) : Nat → Nat → List (Nat × Nat)
  | _, 0 => []
  | p, f + 1 =>
    if s.length ≤ p then []
    else
      match tryMatchAt s p with
      | some j => (p, j) :: scanTokens s j f
      | none => scanTokens s (p + 1) f

/-- All tokens of the lowercased query matched by /\b[\w.-]{3,}\b/g. -/
def allTokens (query : Str) : List Str :=
  let lq := query.map Char.toLower
  (scanTokens lq 0 (lq.length + 1)).map (fun pr => (lq.drop pr.1).take (pr.2 - pr.1))

/-- The term list of pickRelevantSnippets: the first 12 matched tokens
    (.slice(0, 12) — note: no deduplication in the source). -/
def extractTerms (query : Str) : List Str := (allTokens query).take 12

/-! Occurrence scanning: the while ((idx = lc.indexOf(term, idx)) !== -1) loop. -/

/-- Position of the leftmost occurrence of t in l, none when t does not
    occur (JS indexOf counted from 0). -/
def firstMatchPos (t : Str) : Str → Option Nat
  | [] => if t = [] then some 0 else none
  | c :: r => if t <+: (c :: r) then some 0 else (firstMatchPos t r).map (· + 1)

/-- JS l.indexOf(t, i): leftmost occurrence at a position ≥ i. -/
def indexOfFrom (l t : Str) (i : Nat) : Option Nat :=
  (firstMatchPos t (l.drop i)).map (· + i)

/-- The per-term scan loop of pickRelevantSnippets: every non-overlapping
    occurrence at idx yields the window
    [max 0 (idx - perHit/2), min |lc| (idx + |t| + perHit/2)]
    (Nat subtraction gives the max-0 clamp), resuming at idx + |t|. -/
def scanTerm (lc : Str) (perHit : Nat) (t : Str) : Nat → Nat → List (Nat × Nat)
  | _, 0 => []
  | i, f + 1 =>
    match indexOfFrom lc t i with
    | none => []
    | some j =>
      (j - perHit / 2, min lc.length (j + t.length + perHit / 2)) ::
        scanTerm lc perHit t (j + t.length) f

/-- All hit windows, term by term in term order. -/
def collectHits (lc : Str) (perHit : Nat) (terms : List Str) : List (Nat × Nat) :=
  terms.flatMap (fun t => scanTerm lc perHit t 0 (lc.length + 1))

/-! hits.sort((a, b) => a[0] - b[0]): a stable sort by start offset,
    modelled by stable insertion sort. -/

/-- Insert w after every element with a strictly smaller start offset and
    before the rest; on ties the earlier element stays first (stability). -/
def insertByStart (w : Nat × Nat) : List (Nat × Nat) → List (Nat × Nat)
  | [] => [w]
  | x :: xs => if x.1 < w.1 then x :: insertByStart w xs else w :: x :: xs

/-- Stable sort of the hit windows by start offset. -/
def sortByStart : List (Nat × Nat) → List (Nat × Nat)
  | [] => []
  | x :: xs => insertByStart x (sortByStart xs)

/-- The merge loop over the sorted hits: the JS code reads and mutates only
    the last element of its merged array, so it is the recursion below with
    the current last window carried separately.  A window h is merged into
    the current window exactly when not (h.start > cur.end + 50). -/
def mergeGo (cur : Nat × Nat) : List (Nat × Nat) → List (Nat × Nat)
  | [] => [cur]
  | h :: t =>
    if cur.2 + 50 < h.1 then cur :: mergeGo h t
    else mergeGo (cur.1, max cur.2 h.2) t

/-- merged windows of the sorted hit list. -/
def mergeWins : List (Nat × Nat) → List (Nat × Nat)
  | [] => []
  | h :: t => mergeGo h t

/-- The discontinuity marker '\n...\n' appended after every window. -/
def SEP : Str := str "\n...\n"

/-- The output loop: append each merged window truncated to perHit
    characters plus the marker, stopping before a window once the
    accumulated output has reached maxChars. -/
def buildOut (text : Str) (perHit maxChars : Nat) : List (Nat × Nat) → Str → Str
  | [], out => out
  | w :: rest, out =>
    if maxChars ≤ out.length then out
    else
      buildOut text perHit maxChars rest
        (out ++ jsSlice text w.1 (min w.2 (w.1 + perHit)) ++ SEP)

/-- Options of pickRelevantSnippets (JS defaults perHitChars = 1000,
    maxChars = 6000; the compiler passes 1200 and 6000). -/
structure SnippetOpts where
  perHitChars : Nat
  maxChars : Nat

/-- pickRelevantSnippets(query, markdown, { perHitChars, maxChars }) of the
    query-aware gemini.js variant (README lines 615-662). -/
def pickRelevantSnippets (query markdown : Str) (o : SnippetOpts) : Str :=
  if markdown = [] then []
  else
    let terms := extractTerms query
    if terms = [] then markdown.take o.maxChars
    else
      let lc := markdown.map Char.toLower
      let hits := collectHits lc o.perHitChars terms
      if hits = [] then markdown.take o.maxChars
      else
        (buildOut markdown o.perHitChars o.maxChars (mergeWins (sortByStart hits)) []).take o.maxChars

/-- Modelled from the claim wording for comparison with extractTerms:
    keep only the first occurrence of each token, then take 12. -/
def dedupFirstAux (seen : List Str) : List Str → List Str
  | [] => []
  | x :: xs => if seen.contains x then dedupFirstAux seen xs else x :: dedupFirstAux (x :: seen) xs

/-- Modelled from the claim wording (C6 reads "the first 12 distinct
    case-insensitive word-like tokens of length ≥ 3"): the token list with
    duplicates removed (first occurrences kept) before the 12-term cap. -/
def specDistinctTerms (query : Str) : List Str := (dedupFirstAux [] (allTokens query)).take 12

/-! The conversation data model shared by both compilers.  A JS message is
    a loosely-typed object; every field the compilers read besides role may
    be absent, which the embedding records with Option. -/

/-- One stored message/turn as the compilers consume it. -/
structure Msg where
  role : Str
  text : Option Str
  title : Option Str
  url : Option Str
  timestamp : Option Str
  markdown : Option Str
  essentialMarkdown : Option Str

/-- One outgoing entry {role, parts: [{text}]}: a single part whose text is
    absent exactly when the source field was (gemini.js forwards m.text
    unchecked for history turns). -/
structure Turn where
  role : Str
  text : Option Str
deriving DecidableEq

/-- The compiler output: contents plus the system instruction text. -/
structure CompiledRequest where
  contents : List Turn
  systemInstruction : Str

namespace GeminiJs

/-- The fixed system instruction of src/gemini.js (lines 40-52), the
    eleven lines joined with newlines. -/
def SYSTEM_INSTRUCTION : Str := str
  ("You are BrowseMate, a fast, reliable chat agent that runs inside a web browser.\n" ++
   "You receive three kinds of inputs:\n" ++
   "1) prior chat turns, 2) the user's current prompt, and 3) optional PAGE CONTEXT blocks that were actively ingested from webpages.\n" ++
   "Guidelines:\n" ++
   "- Always prefer facts from the most relevant PAGE CONTEXT blocks. Cite the source title or domain in-line (e.g., \"(source: example.com)\") when you rely on it.\n" ++
   "- If PAGE CONTEXT conflicts, call this out and explain the divergence; prefer the most recent, specific source.\n" ++
   "- Be concise by default; use bullet points for lists. Format code with fenced blocks.\n" ++
   "- If the question is general and PAGE CONTEXT is irrelevant, answer normally without forcing a summary.\n" ++
   "- Do not invent URLs or content that wasn't provided.\n" ++
   "- When asked to summarize a page, extract the essentials (headings, key bullets, data) and avoid boilerplate.\n" ++
   "Output should be helpful, accurate, and immediately usable.")

/-- The context mapper of src/gemini.js (lines 66-71): essential markdown
    preferred, then markdown, then text, trimmed to 3000 characters, under
    a header with Untitled / Unknown / empty-string placeholders. -/
def renderContext (m : Msg) : Turn :=
  let md := (jsOr m.essentialMarkdown (jsOr m.markdown (jsOr m.text []))).take 3000
  let header := str "PAGE CONTEXT — " ++ jsOr m.title (str "Untitled") ++ str " (" ++
    jsOr m.url (str "Unknown") ++ str ") — captured " ++ jsOr m.timestamp []
  Turn.mk (str "user") (some (header ++ str "\n\n" ++ md))

/-- The forEach body of src/gemini.js (lines 73-76): push a user entry when
    the role is user, a model entry when it is model. -/
def pushTurn (acc : List Turn) (m : Msg) : List Turn :=
  let acc1 := if m.role == str "user" then acc ++ [Turn.mk (str "user") m.text] else acc
  if m.role == str "model" then acc1 ++ [Turn.mk (str "model") m.text] else acc1

/-- compileMessagesForGemini of src/gemini.js (lines 36-80).  The unused JS
    settings parameter is omitted. -/
def compileMessagesForGemini (messages : List Msg) : CompiledRequest :=
  let userAndModel := lastN 8 (messages.filter (fun m => m.role == str "user" || m.role == str "model"))
  let contexts := (lastN 5 (messages.filter (fun m => m.role == str "context"))).map renderContext
  let chatHistory := userAndModel.foldl pushTurn []
  CompiledRequest.mk (contexts ++ chatHistory) SYSTEM_INSTRUCTION

end GeminiJs

namespace Rag

/-- The fixed system instruction of the query-aware variant (README lines
    667-677), the nine lines joined with newlines. -/
def SYSTEM_INSTRUCTION : Str := str
  ("You are BrowseMate, a fast, reliable chat agent that runs inside a web browser.\n" ++
   "Inputs you receive:\n" ++
   "1) prior chat turns, 2) the user's current prompt, and 3) PAGE CONTEXT blocks from ingested webpages.\n" ++
   "Guidelines:\n" ++
   "- Prefer facts from relevant PAGE CONTEXT blocks and cite their domain/title inline.\n" ++
   "- If contexts conflict, explain the divergence and prefer the most specific, recent source.\n" ++
   "- Summaries should be concise and structured; use bullets/tables when useful.\n" ++
   "- Format code with fenced blocks. Do not invent content or URLs.\n" ++
   "- If PAGE CONTEXT is irrelevant, answer normally.")

/-- The context mapper of the query-aware variant (README lines 690-698):
    query-aware snippets from full markdown when m.markdown is truthy, else
    the essential markdown trimmed to 6000 characters; header placeholders
    are Untitled and the empty string. -/
def renderCtx (query : Str) (m : Msg) : Turn :=
  let excerpt :=
    if truthy m.markdown then pickRelevantSnippets query (m.markdown.getD []) (SnippetOpts.mk 1200 6000)
    else (jsOr m.essentialMarkdown []).take 6000
  let hdr := str "PAGE CONTEXT — " ++ jsOr m.title (str "Untitled") ++ str " (" ++
    jsOr m.url [] ++ str ") — captured " ++ jsOr m.timestamp []
  Turn.mk (str "user") (some (hdr ++ str "\n\n" ++ excerpt))

/-- compileMessagesForGemini of the query-aware variant (README lines
    664-706).  The unused JS settings parameter is omitted. -/
def compileMessagesForGemini (messages : List Msg) : CompiledRequest :=
  let lastUser := messages.reverse.find? (fun m => m.role == str "user")
  let query := match lastUser with
    | some m => jsOr m.text []
    | none => []
  let chatTurns := lastN 8 (messages.filter (fun m => m.role == str "user" || m.role == str "model"))
  let contexts := (lastN 5 (messages.filter (fun m => m.role == str "context"))).map (renderCtx query)
  let history := chatTurns.map (fun m => Turn.mk m.role m.text)
  CompiledRequest.mk (contexts ++ history) SYSTEM_INSTRUCTION

end Rag

/-! parseGeminiResponse (src/gemini.js lines 184-213).  The wire response
    is embedded structurally; absent members (and non-array members, which
    the code treats like absent ones via Array.isArray) are none.  The
    outer try/catch re-throws every failure with the prefix
    "Failed to parse response: ", embedded directly in the messages. -/

structure GPart where
  text : Option Str

structure GContent where
  parts : Option (List GPart)

structure GCandidate where
  content : Option GContent

structure GResponse where
  candidates : Option (List GCandidate)

namespace ParseG

def M_CAND_FMT : Str := str "Failed to parse response: Invalid response format: missing candidates array"
def M_NO_RESP : Str := str "Failed to parse response: No response generated"
def M_CAND_PARTS : Str := str "Failed to parse response: Invalid candidate format: missing content parts"
def M_NO_PARTS : Str := str "Failed to parse response: No content parts in response"
def M_NO_TEXT : Str := str "Failed to parse response: No text content in response part"

/-- parseGeminiResponse: the extracted text of the first part of the first
    candidate, or the distinct raised message of each failure condition. -/
def parseGeminiResponse (r : GResponse) : Except Str Str :=
  match r.candidates with
  | none => Except.error M_CAND_FMT
  | some [] => Except.error M_NO_RESP
  | some (cand :: _) =>
    match cand.content with
    | none => Except.error M_CAND_PARTS
    | some content =>
      match content.parts with
      | none => Except.error M_CAND_PARTS
      | some [] => Except.error M_NO_PARTS
      | some (p :: _) =>
        match p.text with
        | none => Except.error M_NO_TEXT
        | some t => if t = [] then Except.error M_NO_TEXT else Except.ok t

end ParseG

/-! Segments between separator markers.  splitSep cuts a string at the
    leftmost non-overlapping occurrences of SEP; the segments are the
    maximal separator-free pieces the reader of the extractor output sees
    between the discontinuity markers. -/

/-- One splitting step per fuel unit; every separator occurrence consumes
    five characters, so s.length fuel always suffices. -/
def splitSepF : Nat → Str → List Str
  | 0, s => [s]
  | f + 1, s =>
    match firstMatchPos SEP s with
    | none => [s]
    | some i => s.take i :: splitSepF f (s.drop (i + 5))

/-- The segments of s between leftmost non-overlapping occurrences of the
    separator marker. -/
def splitSep (s : Str) : List Str := splitSepF s.length s

/-- The four characters "\n..." whose absence from a document rules out
    every overlap between document text and separator markers. -/
def nlDots : Str := str "\n..."

theorem firstMatchPos_sound {t : Str} : ∀ {l : Str} {i : Nat},
    firstMatchPos t l = some i → t <+: l.drop i := by
  intro l
  induction l with
  | nil =>
    intro i h
    simp only [firstMatchPos] at h
    by_cases ht : t = []
    · simp only [ht, if_pos rfl, Option.some.injEq] at h
      simp [ht, ← h]
    · simp [ht] at h
  | cons c r ih =>
    intro i h
    simp only [firstMatchPos] at h
    by_cases hp : t <+: (c :: r)
    · simp only [if_pos hp, Option.some.injEq] at h
      simpa [← h] using hp
    · simp only [if_neg hp, Option.map_eq_some'] at h
      obtain ⟨j, hj, rfl⟩ := h
      simpa using ih hj

theorem firstMatchPos_of {t : Str} : ∀ {l : Str} {n : Nat},
    t <+: l.drop n → (∀ k < n, ¬ t <+: l.drop k) → firstMatchPos t l = some n := by
  intro l
  induction l with
  | nil =>
    intro n hocc hmin
    have ht : t = [] := by simpa using hocc
    rcases Nat.eq_zero_or_pos n with hn | hn
    · subst hn; simp [firstMatchPos, ht]
    · exact absurd (by simp [ht]) (hmin 0 hn)
  | cons c r ih =>
    intro n hocc hmin
    match n with
    | 0 => simpa [firstMatchPos] using hocc
    | m + 1 =>
      have h0 : ¬ t <+: (c :: r) := by simpa using hmin 0 (Nat.succ_pos m)
      have hr : firstMatchPos t r = some m := by
        refine ih (by simpa using hocc) ?_
        intro k hk
        simpa using hmin (k + 1) (by omega)
      simp [firstMatchPos, h0, hr]

theorem noNlDots_of_sub {s d : Str} (h : s <:+: d) (hd : ¬ nlDots <:+: d) :
    ¬ nlDots <:+: s := fun hc => hd (hc.trans h)

theorem nlDots_prefix_SEP : nlDots <+: SEP := by decide

/-- A separator-free string is not cut by the splitter. -/
theorem firstMatchPos_none_of_noNlDots {s : Str} (h : ¬ nlDots <:+: s) :
    firstMatchPos SEP s = none := by
  cases hm : firstMatchPos SEP s with
  | none => rfl
  | some i =>
    exfalso
    apply h
    have h1 : SEP <+: s.drop i := firstMatchPos_sound hm
    exact ((nlDots_prefix_SEP.trans h1).isInfix).trans (List.drop_suffix i s).isInfix

/-- A prefix of the first summand: t <+: a ++ b with t no longer than a
    forces t <+: a. -/
theorem prefix_of_prefix_append {t a b : Str} (h : t <+: a ++ b) (hl : t.length ≤ a.length) :
    t <+: a := by
  have h1 : t = (a ++ b).take t.length := List.prefix_iff_eq_take.mp h
  rw [List.take_append_of_le_length hl] at h1
  exact h1 ▸ ⟨a.drop t.length, List.take_append_drop _ _⟩

/-- Core alignment fact: inside a "\n..."-free block x followed by material
    w that extends or begins the separator, no separator occurrence can
    start strictly before the end of x. -/
theorem no_sep_inside {x : Str} (hx : ¬ nlDots <:+: x) {w : Str}
    (hw : SEP <+: w ∨ w <+: SEP) :
    ∀ i < x.length, ¬ SEP <+: (x ++ w).drop i := by
  intro i hi hocc
  rw [List.drop_append_of_le_length (Nat.le_of_lt hi)] at hocc
  set u := x.drop i with hu
  have hk : u.length = x.length - i := by simp [hu]
  have hk1 : 1 ≤ u.length := by omega
  have hS5 : SEP.length = 5 := by decide
  rcases Nat.lt_or_ge u.length 5 with hlt | hge
  · -- the occurrence spans the end of x and the start of w
    have heq : SEP = u ++ w.take (5 - u.length) := by
      have h1 : SEP = (u ++ w).take 5 := by
        have := List.prefix_iff_eq_take.mp hocc
        rwa [hS5] at this
      rw [List.take_append_eq_append_take, List.take_of_length_le (by omega)] at h1
      exact h1
    have hwtake : w.take (5 - u.length) = SEP.take (5 - u.length) := by
      rcases hw with hw | hw
      · obtain ⟨w', rfl⟩ := hw
        exact List.take_append_of_le_length (by omega)
      · have hwl : 5 - u.length ≤ w.length := by
          have := congrArg List.length heq
          simp [hS5, List.length_take] at this
          omega
        have h2 : w = SEP.take w.length := List.prefix_iff_eq_take.mp hw
        rw [h2, List.take_take]
        congr 1
        omega
    rw [hwtake] at heq
    have hu_eq : u = SEP.take u.length := by
      have := congrArg (List.take u.length) heq
      rw [List.take_append_of_le_length (Nat.le_refl _),
        List.take_of_length_le (Nat.le_refl _)] at this
      exact this.symm
    have hcases : u.length = 1 ∨ u.length = 2 ∨ u.length = 3 ∨ u.length = 4 := by omega
    rcases hcases with h | h | h | h
    · rw [hu_eq, h] at heq; revert heq; decide
    · rw [hu_eq, h] at heq; revert heq; decide
    · rw [hu_eq, h] at heq; revert heq; decide
    · -- x ends with "\n...", contradicting freeness
      apply hx
      have : u = nlDots := by rw [hu_eq, h]; decide
      exact this ▸ (List.drop_suffix i x).isInfix
  · -- the occurrence sits inside x
    have h1 : SEP <+: u := prefix_of_prefix_append hocc (by omega)
    exact (noNlDots_of_sub (List.drop_suffix i x).isInfix hx)
      (nlDots_prefix_SEP.trans h1).isInfix

/-- The leftmost separator occurrence in x ++ SEP ++ r for "\n..."-free x
    is exactly the structural one at position x.length. -/
theorem firstMatchPos_append_sep {x : Str} (hx : ¬ nlDots <:+: x) (r : Str) :
    firstMatchPos SEP (x ++ (SEP ++ r)) = some x.length := by
  refine firstMatchPos_of ?_ ?_
  · rw [List.drop_left]
    exact ⟨r, rfl⟩
  · intro k hk
    exact no_sep_inside hx (Or.inl ⟨r, rfl⟩) k hk

/-- No separator occurrence at all in x ++ w when x is "\n..."-free and w
    is a short proper prefix of the separator. -/
theorem firstMatchPos_append_cut {x w : Str} (hx : ¬ nlDots <:+: x)
    (hw : w <+: SEP) (hlen : w.length < 5) :
    firstMatchPos SEP (x ++ w) = none := by
  cases hm : firstMatchPos SEP (x ++ w) with
  | none => rfl
  | some i =>
    exfalso
    have h1 : SEP <+: (x ++ w).drop i := firstMatchPos_sound hm
    rcases Nat.lt_or_ge i x.length with hi | hi
    · exact no_sep_inside hx (Or.inr hw) i hi h1
    · have h2 := h1.length_le
      have h3 : SEP.length = 5 := by decide
      simp [List.length_drop, List.length_append] at h2
      omega

/-- Any separator occurrence leaves at least five characters after its
    start. -/
theorem firstMatchPos_sep_bound {s : Str} {i : Nat}
    (h : firstMatchPos SEP s = some i) : i + 5 ≤ s.length := by
  have h1 := (firstMatchPos_sound h).length_le
  have h2 : SEP.length = 5 := by decide
  simp [List.length_drop, h2] at h1
  omega

/-- Fuel irrelevance of the splitting loop above the length bound. -/
theorem splitSepF_congr : ∀ (f₁ : Nat) (f₂ : Nat) (s : Str), s.length ≤ f₁ → s.length ≤ f₂ →
    splitSepF f₁ s = splitSepF f₂ s := by
  intro f₁
  induction f₁ with
  | zero =>
    intro f₂ s h1 h2
    have hs : s = [] := by
      cases s with
      | nil => rfl
      | cons c r => simp at h1
    subst hs
    cases f₂ with
    | zero => rfl
    | succ g =>
      have hnone : firstMatchPos SEP ([] : Str) = none := by decide
      simp [splitSepF, hnone]
  | succ f ih =>
    intro f₂ s h1 h2
    cases f₂ with
    | zero =>
      have hs : s = [] := by
        cases s with
        | nil => rfl
        | cons c r => simp at h2
      subst hs
      have hnone : firstMatchPos SEP ([] : Str) = none := by decide
      simp [splitSepF, hnone]
    | succ g =>
      cases hm : firstMatchPos SEP s with
      | none => simp [splitSepF, hm]
      | some i =>
        have hb := firstMatchPos_sep_bound hm
        simp only [splitSepF, hm]
        congr 1
        exact ih g (s.drop (i + 5)) (by simp [List.length_drop]; omega)
          (by simp [List.length_drop]; omega)

/-- Splitting peels one "\n..."-free block followed by a separator. -/
theorem splitSep_cons {x : Str} (hx : ¬ nlDots <:+: x) (r : Str) :
    splitSep (x ++ (SEP ++ r)) = x :: splitSep r := by
  have hS5 : SEP.length = 5 := by decide
  have hlen : (x ++ (SEP ++ r)).length = (x.length + r.length + 4) + 1 := by
    simp [List.length_append, hS5]; omega
  rw [splitSep, hlen]
  simp only [splitSepF, firstMatchPos_append_sep hx r]
  have htake : (x ++ (SEP ++ r)).take x.length = x := List.take_left x (SEP ++ r)
  have hdrop : (x ++ (SEP ++ r)).drop (x.length + 5) = r := by
    rw [← List.append_assoc]
    have h1 : (x ++ SEP).length = x.length + 5 := by simp [List.length_append, hS5]
    rw [← h1]
    exact List.drop_left (x ++ SEP) r
  rw [htake, hdrop]
  congr 1
  rw [splitSep]
  exact splitSepF_congr (x.length + r.length + 4) r.length r (by omega) (Nat.le_refl _)

/-- A string without separator occurrences is one single segment. -/
theorem splitSep_single {s : Str} (h : firstMatchPos SEP s = none) :
    splitSep s = [s] := by
  rw [splitSep]
  cases hl : s.length with
  | zero => rfl
  | succ n => simp [splitSepF, h]

/-- joinSEP ws: each window followed by the separator marker, in order:
    the exact shape the output loop of the extractor accumulates. -/
def joinSEP (ws : List Str) : Str := ws.foldr (fun x acc => x ++ (SEP ++ acc)) []

theorem joinSEP_append (a b : List Str) : joinSEP (a ++ b) = joinSEP a ++ joinSEP b := by
  induction a with
  | nil => simp [joinSEP]
  | cons x xs ih => simp [joinSEP, List.foldr_cons] at ih ⊢; simp [ih]

theorem take_isPrefix_self (l : Str) (n : Nat) : l.take n <+: l :=
  ⟨l.drop n, List.take_append_drop n l⟩

theorem jsSlice_isInfix (d : Str) (a b : Nat) : jsSlice d a b <:+: d :=
  ((take_isPrefix_self (d.drop a) (b - a)).isInfix).trans (List.drop_suffix a d).isInfix

/-- Every segment of any truncation of a separator-joined window list over
    a "\n..."-free document is a document substring followed by at most a
    partial separator. -/
theorem segs_of_take {d : Str} (hd : ¬ nlDots <:+: d) :
    ∀ (ws : List Str), (∀ x ∈ ws, x <:+: d) → ∀ (n : Nat),
      ∀ seg ∈ splitSep ((joinSEP ws).take n),
        ∃ u v, seg = u ++ v ∧ u <:+: d ∧ v <+: SEP := by
  intro ws
  induction ws with
  | nil =>
    intro _ n seg hseg
    have h0 : (joinSEP ([] : List Str)).take n = [] := by simp [joinSEP]
    rw [h0] at hseg
    rcases List.mem_singleton.mp hseg with rfl
    exact ⟨[], [], by simp, ⟨[], d, by simp⟩, ⟨SEP, rfl⟩⟩
  | cons x ws ih =>
    intro hmem n seg hseg
    have hx_inf : x <:+: d := hmem x (by simp)
    have hx : ¬ nlDots <:+: x := noNlDots_of_sub hx_inf hd
    have hS5 : SEP.length = 5 := by decide
    have hj : joinSEP (x :: ws) = x ++ (SEP ++ joinSEP ws) := rfl
    rw [hj] at hseg
    rcases le_or_lt n x.length with hA | hA
    · rw [List.take_append_of_le_length hA] at hseg
      have hinf : x.take n <:+: d := (take_isPrefix_self x n).isInfix.trans hx_inf
      rw [splitSep_single (firstMatchPos_none_of_noNlDots (noNlDots_of_sub hinf hd))] at hseg
      rcases List.mem_singleton.mp hseg with rfl
      exact ⟨x.take n, [], by simp, hinf, ⟨SEP, rfl⟩⟩
    · have h1 : (x ++ (SEP ++ joinSEP ws)).take n =
          x ++ (SEP ++ joinSEP ws).take (n - x.length) := by
        rw [List.take_append_eq_append_take, List.take_of_length_le (by omega)]
      rw [h1] at hseg
      rcases Nat.lt_or_ge (n - x.length) 5 with hB | hC
      · have h2 : (SEP ++ joinSEP ws).take (n - x.length) = SEP.take (n - x.length) :=
          List.take_append_of_le_length (by omega)
        rw [h2] at hseg
        have hnone := firstMatchPos_append_cut hx (take_isPrefix_self SEP (n - x.length))
          (by simp [List.length_take]; omega)
        rw [splitSep_single hnone] at hseg
        rcases List.mem_singleton.mp hseg with rfl
        exact ⟨x, SEP.take (n - x.length), rfl, hx_inf, take_isPrefix_self SEP (n - x.length)⟩
      · have h2 : (SEP ++ joinSEP ws).take (n - x.length) =
            SEP ++ (joinSEP ws).take (n - x.length - 5) := by
          rw [List.take_append_eq_append_take, List.take_of_length_le (by omega), hS5]
        rw [h2, splitSep_cons hx] at hseg
        rcases List.mem_cons.mp hseg with heq | htl
        · exact ⟨x, [], by simpa using heq, hx_inf, ⟨SEP, rfl⟩⟩
        · exact ih (fun y hy => hmem y (by simp [hy])) (n - x.length - 5) seg htl

/-- The output loop always produces a separator-joined list of document
    slices, whatever prefix of the merged windows it appends. -/
theorem buildOut_join (d : Str) (P M : Nat) :
    ∀ (hs : List (Nat × Nat)) (ws : List Str), (∀ x ∈ ws, x <:+: d) →
      ∃ ws', buildOut d P M hs (joinSEP ws) = joinSEP ws' ∧ ∀ x ∈ ws', x <:+: d := by
  intro hs
  induction hs with
  | nil => exact fun ws h => ⟨ws, rfl, h⟩
  | cons w rest ih =>
    intro ws h
    by_cases hb : M ≤ (joinSEP ws).length
    · exact ⟨ws, by simp [buildOut, hb], h⟩
    · have hmem : ∀ y ∈ ws ++ [jsSlice d w.1 (min w.2 (w.1 + P))], y <:+: d := by
        intro y hy
        rcases List.mem_append.mp hy with hy | hy
        · exact h y hy
        · rcases List.mem_singleton.mp hy with rfl
          exact jsSlice_isInfix d w.1 (min w.2 (w.1 + P))
      obtain ⟨ws', hws', hmem'⟩ := ih (ws ++ [jsSlice d w.1 (min w.2 (w.1 + P))]) hmem
      refine ⟨ws', ?_, hmem'⟩
      have hstep : joinSEP ws ++ jsSlice d w.1 (min w.2 (w.1 + P)) ++ SEP =
          joinSEP (ws ++ [jsSlice d w.1 (min w.2 (w.1 + P))]) := by
        rw [joinSEP_append]
        simp [joinSEP, List.append_assoc]
      simp only [buildOut, if_neg hb]
      rw [hstep]
      exact hws'

theorem firstMatchPos_none_of_absent {t l : Str} (h : ¬ t <:+: l) :
    firstMatchPos t l = none := by
  cases hm : firstMatchPos t l with
  | none => rfl
  | some i =>
    exact absurd ((firstMatchPos_sound hm).isInfix.trans (List.drop_suffix i l).isInfix) h

/-- Claim C1: for every query string, every document string and every
    options value, the length of the string returned by the relevance
    extractor pickRelevantSnippets is at most options.maxChars, on every
    path (empty document, no-terms fallback, zero-hit fallback, and the
    window-concatenation path). -/
theorem pickRelevantSnippets_length_le (q d : Str) (o : SnippetOpts) :
    (pickRelevantSnippets q d o).length ≤ o.maxChars := by
  simp only [pickRelevantSnippets]
  split
  · simp
  · split
    · rw [List.length_take]; omega
    · split
      · rw [List.length_take]; omega
      · rw [List.length_take]; omega

/-- Claim C4: if tokenizing the query yields no terms, or no query term
    occurs anywhere in the (lowercased) document, the extractor returns
    exactly the first maxChars characters of the document, as a normal
    return value. -/
theorem pickRelevantSnippets_fallback (q d : Str) (o : SnippetOpts)
    (h : extractTerms q = [] ∨ ∀ t ∈ extractTerms q, ¬ t <:+: d.map Char.toLower) :
    pickRelevantSnippets q d o = d.take o.maxChars := by
  by_cases h0 : d = []
  · subst h0; simp [pickRelevantSnippets]
  · rcases h with h | h
    · simp [pickRelevantSnippets, h0, h]
    · have hhits : collectHits (d.map Char.toLower) o.perHitChars (extractTerms q) = [] := by
        rw [collectHits, List.flatMap_eq_nil_iff]
        intro t ht
        have hnone : indexOfFrom (d.map Char.toLower) t 0 = none := by
          rw [indexOfFrom, List.drop_zero, firstMatchPos_none_of_absent (h t ht)]
          rfl
        simp [scanTerm, hnone]
      simp only [pickRelevantSnippets, if_neg h0]
      split
      · rfl
      · simp [hhits]

theorem pickRelevantSnippets_fallback_witness :
    (∀ t ∈ extractTerms (str "hello world"), ¬ t <:+: (str "zzzz").map Char.toLower) ∧
      pickRelevantSnippets (str "hello world") (str "zzzz") (SnippetOpts.mk 10 2) =
        (str "zzzz").take 2 :=
  ⟨by decide, pickRelevantSnippets_fallback _ _ _ (Or.inr (by decide))⟩

/-- Claim C3 (counterexample): with query "abc", document "abc" and
    maxChars 4 the returned string is "abc\n" — the cut falls inside the
    separator marker, so the single segment between separator markers is
    not a substring of the document. -/
theorem pickRelevantSnippets_segment_not_substring_cex :
    pickRelevantSnippets (str "abc") (str "abc") (SnippetOpts.mk 1000 4) = str "abc\n" ∧
      str "abc\n" ∈ splitSep (str "abc\n") ∧ ¬ str "abc\n" <:+: str "abc" :=
  ⟨by decide, by decide, by decide⟩

/-- Claim C3 (amended): provided the document does not contain the
    four-character substring "\n..." (so document text cannot overlap a
    separator marker), every contiguous segment of the extractor output
    between separator markers is an exact substring of the document,
    except that the final segment may additionally end with a proper
    prefix of the separator when the maxChars cut falls inside a marker:
    every segment is (substring of document) ++ (prefix of "\n...\n"). -/
theorem pickRelevantSnippets_segments_amended (q d : Str) (o : SnippetOpts)
    (hd : ¬ nlDots <:+: d) :
    ∀ seg ∈ splitSep (pickRelevantSnippets q d o),
      ∃ u v, seg = u ++ v ∧ u <:+: d ∧ v <+: SEP := by
  intro seg hseg
  by_cases h0 : d = []
  · subst h0
    simp only [pickRelevantSnippets, if_pos rfl] at hseg
    rcases List.mem_singleton.mp hseg with rfl
    exact ⟨[], [], by simp, ⟨[], [], by simp⟩, ⟨SEP, rfl⟩⟩
  · have htakeseg : ∀ hseg2 : seg ∈ splitSep (d.take o.maxChars),
        ∃ u v, seg = u ++ v ∧ u <:+: d ∧ v <+: SEP := by
      intro hseg2
      have hinf : d.take o.maxChars <:+: d := (take_isPrefix_self d o.maxChars).isInfix
      rw [splitSep_single (firstMatchPos_none_of_noNlDots (noNlDots_of_sub hinf hd))] at hseg2
      rcases List.mem_singleton.mp hseg2 with rfl
      exact ⟨d.take o.maxChars, [], by simp, hinf, ⟨SEP, rfl⟩⟩
    simp only [pickRelevantSnippets, if_neg h0] at hseg
    by_cases h1 : extractTerms q = []
    · rw [if_pos h1] at hseg
      exact htakeseg hseg
    · rw [if_neg h1] at hseg
      by_cases h2 : collectHits (d.map Char.toLower) o.perHitChars (extractTerms q) = []
      · rw [if_pos h2] at hseg
        exact htakeseg hseg
      · rw [if_neg h2] at hseg
        obtain ⟨ws', hws', hmem'⟩ := buildOut_join d o.perHitChars o.maxChars
          (mergeWins (sortByStart (collectHits (d.map Char.toLower) o.perHitChars (extractTerms q))))
          [] (by intro x hx; simp at hx)
        rw [show (buildOut d o.perHitChars o.maxChars
          (mergeWins (sortByStart (collectHits (d.map Char.toLower) o.perHitChars (extractTerms q))))
          [] : Str) = joinSEP ws' from hws'] at hseg
        exact segs_of_take hd ws' hmem' o.maxChars seg hseg

theorem pickRelevantSnippets_segments_amended_witness :
    (¬ nlDots <:+: str "say abc here") ∧
      ∀ seg ∈ splitSep (pickRelevantSnippets (str "abc") (str "say abc here") (SnippetOpts.mk 4 20)),
        ∃ u v, seg = u ++ v ∧ u <:+: str "say abc here" ∧ v <+: SEP :=
  ⟨by decide, pickRelevantSnippets_segments_amended _ _ _ (by decide)⟩

/-! Concrete two-occurrence scenario documents for the merge claim. -/

/-- Two occurrences of "abc" whose windows (perHitChars 10) touch:
    occurrences at 5 and 18, windows (0,13) and (13,26), gap 0. -/
def docNear : Str := str "zzzzzabczzzzzzzzzzabczzzzz"

/-- Two occurrences of "abc" whose windows (perHitChars 10) are 52 apart:
    occurrences at 5 and 70, windows (0,13) and (65,75). -/
def docFar : Str := str "zzzzzabc" ++ List.replicate 62 'z' ++ str "abczz"

/-- Two occurrences of "abc" whose windows (perHitChars 2) have gap
    exactly 50: occurrences at 1 and 56, windows (0,5) and (55,60). -/
def docGap50 : Str := str "xabc" ++ List.replicate 52 'z' ++ str "abcx"

/-- Claim C5 (counterexample): on docGap50 with perHitChars 2 the two hit
    windows are (0,5) and (55,60) with gap exactly 50, yet the code merges
    them into one window (the claim demands two windows at gap ≥ 50), and
    the output "xa\n...\n" does not contain the matched term "abc" (the
    claim says the output always contains it). -/
theorem mergeWindows_gap50_cex :
    sortByStart (collectHits (docGap50.map Char.toLower) 2 (extractTerms (str "abc"))) =
      [(0, 5), (55, 60)] ∧
    mergeWins [((0 : Nat), (5 : Nat)), (55, 60)] = [(0, 60)] ∧
    pickRelevantSnippets (str "abc") docGap50 (SnippetOpts.mk 2 6000) = str "xa" ++ SEP ∧
    ¬ str "abc" <:+: (str "xa" ++ SEP) :=
  ⟨by decide, by decide, by decide, by decide⟩

/-- Claim C5 (amended): after sorting, two adjacent windows are merged
    exactly when the gap (start of the later minus end of the earlier) is
    at most 50 and kept separate exactly when it exceeds 50; for a
    document with two occurrences of a query term the extractor output
    has one merged window when the gap is ≤ 50 and two when it is > 50,
    and contains the matched term as a literal substring when the window
    and output budgets accommodate it (as in the two scenarios below). -/
theorem mergeWindows_amended :
    (∀ a b c e : Nat, c ≤ b + 50 → mergeWins [(a, b), (c, e)] = [(a, max b e)]) ∧
    (∀ a b c e : Nat, b + 50 < c → mergeWins [(a, b), (c, e)] = [(a, b), (c, e)]) ∧
    (mergeWins (sortByStart (collectHits (docNear.map Char.toLower) 10 (extractTerms (str "abc")))) =
        [(0, 26)] ∧
      str "abc" <:+: pickRelevantSnippets (str "abc") docNear (SnippetOpts.mk 10 6000)) ∧
    ((mergeWins (sortByStart (collectHits (docFar.map Char.toLower) 10 (extractTerms (str "abc"))))).length = 2 ∧
      str "abc" <:+: pickRelevantSnippets (str "abc") docFar (SnippetOpts.mk 10 6000)) := by
  refine ⟨?_, ?_, by decide, by decide⟩
  · intro a b c e h
    simp [mergeWins, mergeGo, if_neg (show ¬ (b + 50 < c) by omega)]
  · intro a b c e h
    simp [mergeWins, mergeGo, if_pos h]

theorem mergeWindows_amended_witness :
    (60 ≤ 10 + 50 ∧ mergeWins [((0 : Nat), (10 : Nat)), (60, 70)] = [(0, max 10 70)]) ∧
      (10 + 50 < 61 ∧ mergeWins [((0 : Nat), (10 : Nat)), (61, 70)] = [(0, 10), (61, 70)]) :=
  ⟨⟨by decide, mergeWindows_amended.1 0 10 60 70 (by decide)⟩,
    ⟨by decide, mergeWindows_amended.2.1 0 10 61 70 (by decide)⟩⟩

/-! Tokenizer facts for the term-list claim. -/

theorem findEndDown_bounds {s : Str} {p j : Nat} :
    ∀ {k : Nat}, findEndDown s p k = some j → p + 3 ≤ j ∧ j ≤ p + 3 + k := by
  intro k
  induction k with
  | zero =>
    intro h
    simp only [findEndDown] at h
    split at h
    · cases h; omega
    · cases h
  | succ k ih =>
    intro h
    simp only [findEndDown] at h
    split at h
    · cases h; omega
    · have := ih h; omega

theorem countLeadingClass_le_length : ∀ l : Str, countLeadingClass l ≤ l.length := by
  intro l
  induction l with
  | nil => simp [countLeadingClass]
  | cons c r ih =>
    simp only [countLeadingClass]
    split
    · simpa using ih
    · simp

theorem countLeadingClass_take_class :
    ∀ l : Str, ∀ c ∈ l.take (countLeadingClass l), isClassChar c = true := by
  intro l
  induction l with
  | nil => simp
  | cons a r ih =>
    simp only [countLeadingClass]
    split
    · intro c hc
      rcases List.mem_cons.mp (by simpa [List.take_succ_cons] using hc) with rfl | hc2
      · assumption
      · exact ih c hc2
    · simp

theorem tryMatchAt_bounds {s : Str} {p j : Nat} (h : tryMatchAt s p = some j) :
    p + 3 ≤ j ∧ j - p ≤ countLeadingClass (s.drop p) ∧ j ≤ s.length := by
  rw [tryMatchAt] at h
  split at h
  · split at h
    · cases h
    · have hb := findEndDown_bounds h
      have hL := countLeadingClass_le_length (s.drop p)
      rw [List.length_drop] at hL
      omega
  · cases h

theorem scanTokens_sound {s : Str} :
    ∀ {f p : Nat}, ∀ pr ∈ scanTokens s p f, tryMatchAt s pr.1 = some pr.2 := by
  intro f
  induction f with
  | zero => intro p pr h; simp [scanTokens] at h
  | succ f ih =>
    intro p pr h
    rw [scanTokens] at h
    split at h
    · simp at h
    · split at h
      · rcases List.mem_cons.mp h with rfl | h2
        · assumption
        · exact ih pr h2
      · exact ih pr h

/-- Claim C6 (counterexample): the source caps the term list with
    .slice(0, 12) without deduplication, so a repeated token consumes
    extra slots: for the query "foo foo" the term list is
    ["foo", "foo"], not the distinct list ["foo"]. -/
theorem extractTerms_not_distinct_cex :
    extractTerms (str "foo foo") = [str "foo", str "foo"] ∧
      specDistinctTerms (str "foo foo") = [str "foo"] ∧
      extractTerms (str "foo foo") ≠ specDistinctTerms (str "foo foo") :=
  ⟨by decide, by decide, by decide⟩

/-- Claim C6 (amended): the term list is the first at most 12 word-like
    tokens of the lowercased query, duplicates included (a repeated token
    does consume slots, shown by the 12-fold query below): every term has
    length ≥ 3, consists only of characters from [A-Za-z0-9_.-], and
    occurs in the lowercased query. -/
theorem extractTerms_amended (q : Str) :
    (extractTerms q).length ≤ 12 ∧
    (∀ t ∈ extractTerms q, 3 ≤ t.length ∧ (∀ c ∈ t, isClassChar c = true) ∧
      t <:+: q.map Char.toLower) ∧
    str "bar" ∉ extractTerms (str "foo foo foo foo foo foo foo foo foo foo foo foo bar") := by
  refine ⟨by simp [extractTerms, List.length_take], ?_, by decide⟩
  intro t ht
  have ht2 : t ∈ allTokens q := List.mem_of_mem_take ht
  rw [allTokens, List.mem_map] at ht2
  obtain ⟨pr, hpr, rfl⟩ := ht2
  have htm := scanTokens_sound pr hpr
  obtain ⟨h3, hL, hlen⟩ := tryMatchAt_bounds htm
  set lq := q.map Char.toLower with hlq
  have hdl : (lq.drop pr.1).length = lq.length - pr.1 := List.length_drop pr.1 lq
  refine ⟨?_, ?_, ?_⟩
  · rw [List.length_take]
    have := countLeadingClass_le_length (lq.drop pr.1)
    omega
  · intro c hc
    have hsub : (lq.drop pr.1).take (pr.2 - pr.1) =
        ((lq.drop pr.1).take (countLeadingClass (lq.drop pr.1))).take (pr.2 - pr.1) := by
      rw [List.take_take]
      congr 1
      omega
    rw [hsub] at hc
    exact countLeadingClass_take_class (lq.drop pr.1) c (List.mem_of_mem_take hc)
  · exact ((take_isPrefix_self (lq.drop pr.1) (pr.2 - pr.1)).isInfix).trans
      (List.drop_suffix pr.1 lq).isInfix

theorem extractTerms_amended_witness :
    (str "ck_lockmutex" ∈ extractTerms (str "What does CK_LOCKMUTEX mean?")) ∧
      3 ≤ (str "ck_lockmutex").length ∧
      (∀ c ∈ str "ck_lockmutex", isClassChar c = true) ∧
      str "ck_lockmutex" <:+: (str "What does CK_LOCKMUTEX mean?").map Char.toLower :=
  ⟨by decide, (extractTerms_amended (str "What does CK_LOCKMUTEX mean?")).2.1
    (str "ck_lockmutex") (by decide)⟩

theorem lastN_length_le (n : Nat) (l : List α) : (lastN n l).length ≤ n := by
  simp only [lastN, List.length_drop]
  omega

/-- On a run of user/model messages the push-based history loop of
    src/gemini.js is the evident map. -/
theorem pushTurn_foldl : ∀ (l : List Msg) (acc : List Turn),
    (∀ m ∈ l, m.role = str "user" ∨ m.role = str "model") →
    l.foldl GeminiJs.pushTurn acc = acc ++ l.map (fun m => Turn.mk m.role m.text) := by
  intro l
  induction l with
  | nil => intro acc _; simp
  | cons m l ih =>
    intro acc hmem
    have hstep : GeminiJs.pushTurn acc m = acc ++ [Turn.mk m.role m.text] := by
      -- in each case exactly one of the two role tests fires
      rcases hmem m (by simp) with h | h
      · simp [GeminiJs.pushTurn, h]
        decide
      · simp [GeminiJs.pushTurn, h]
        decide
    rw [List.foldl_cons, hstep, ih (acc ++ [Turn.mk m.role m.text]) (fun x hx => hmem x (by simp [hx]))]
    simp

/-- Claim C2: for both compilers, the compiled contents are exactly the
    rendered last at most 5 context turns (in original order) followed by
    the last at most 8 user/model turns (in original order): every
    context-derived entry precedes every history entry, with the 5 and 8
    window bounds. -/
theorem compileMessages_window_bound (msgs : List Msg) :
    (∃ cs hs,
      (GeminiJs.compileMessagesForGemini msgs).contents = cs ++ hs ∧
      cs = (lastN 5 (msgs.filter (fun m => m.role == str "context"))).map GeminiJs.renderContext ∧
      hs = (lastN 8 (msgs.filter (fun m => m.role == str "user" || m.role == str "model"))).map
        (fun m => Turn.mk m.role m.text) ∧
      cs.length ≤ 5 ∧ hs.length ≤ 8) ∧
    (∃ cs hs,
      (Rag.compileMessagesForGemini msgs).contents = cs ++ hs ∧
      cs = (lastN 5 (msgs.filter (fun m => m.role == str "context"))).map
        (Rag.renderCtx (match msgs.reverse.find? (fun m => m.role == str "user") with
          | some m => jsOr m.text []
          | none => [])) ∧
      hs = (lastN 8 (msgs.filter (fun m => m.role == str "user" || m.role == str "model"))).map
        (fun m => Turn.mk m.role m.text) ∧
      cs.length ≤ 5 ∧ hs.length ≤ 8) := by
  constructor
  · refine ⟨_, _, ?_, rfl, rfl, ?_, ?_⟩
    · simp only [GeminiJs.compileMessagesForGemini]
      congr 1
      refine (pushTurn_foldl _ [] ?_).trans (by simp)
      intro m hm
      have hm2 := (List.mem_filter.mp (List.mem_of_mem_drop hm)).2
      simpa using hm2
    · rw [List.length_map]; exact lastN_length_le 5 _
    · rw [List.length_map]; exact lastN_length_le 8 _
  · refine ⟨_, _, rfl, rfl, rfl, ?_, ?_⟩
    · rw [List.length_map]; exact lastN_length_le 5 _
    · rw [List.length_map]; exact lastN_length_le 8 _

/-- Claim C7: both compilers are total functions of their inputs — absent
    fields are Option-typed and every path produces a result — the system
    instruction is the fixed constant on every input, the empty turn list
    compiles to an empty contents list, and a context turn with every
    optional field absent still compiles to one well-formed entry. -/
theorem compileMessages_total_fixed_instruction :
    (GeminiJs.compileMessagesForGemini []).contents = [] ∧
    (∀ msgs, (GeminiJs.compileMessagesForGemini msgs).systemInstruction =
      GeminiJs.SYSTEM_INSTRUCTION) ∧
    (Rag.compileMessagesForGemini []).contents = [] ∧
    (∀ msgs, (Rag.compileMessagesForGemini msgs).systemInstruction = Rag.SYSTEM_INSTRUCTION) ∧
    (GeminiJs.compileMessagesForGemini
      [Msg.mk (str "context") none none none none none none]).contents.length = 1 ∧
    (Rag.compileMessagesForGemini
      [Msg.mk (str "context") none none none none none none]).contents.length = 1 :=
  ⟨rfl, fun _ => rfl, rfl, fun _ => rfl, by decide, by decide⟩

/-- Claim C8 (counterexample): a context turn with title "T", url "U" and
    missing timestamp compiles (src/gemini.js) to a header ending in
    "captured " with an empty timestamp slot — not the "Unknown"
    placeholder the claim asserts for a missing timestamp. -/
theorem header_placeholder_cex :
    (GeminiJs.compileMessagesForGemini
        [Msg.mk (str "context") none (some (str "T")) (some (str "U")) none none
          (some (str "md"))]).contents =
      [Turn.mk (str "user") (some (str "PAGE CONTEXT — T (U) — captured \n\nmd"))] ∧
      str "PAGE CONTEXT — T (U) — captured \n\nmd" ≠
        str "PAGE CONTEXT — T (U) — captured Unknown\n\nmd" :=
  ⟨by decide, by decide⟩

/-- Claim C8 (amended): a context turn with missing title, url and
    timestamp does not fail either compiler; src/gemini.js substitutes
    "Untitled" for the title and "Unknown" for the url but the empty
    string for the timestamp, and the query-aware README variant
    substitutes "Untitled" for the title and the empty string for both
    the url and the timestamp. -/
theorem header_placeholder_amended (m : Msg) (ht : m.title = none) (hu : m.url = none)
    (hts : m.timestamp = none) :
    GeminiJs.renderContext m = Turn.mk (str "user")
      (some (str "PAGE CONTEXT — Untitled (Unknown) — captured \n\n" ++
        (jsOr m.essentialMarkdown (jsOr m.markdown (jsOr m.text []))).take 3000)) ∧
    ∀ q : Str, Rag.renderCtx q m = Turn.mk (str "user")
      (some (str "PAGE CONTEXT — Untitled () — captured \n\n" ++
        (if truthy m.markdown then
          pickRelevantSnippets q (m.markdown.getD []) (SnippetOpts.mk 1200 6000)
        else (jsOr m.essentialMarkdown []).take 6000))) := by
  constructor
  · simp only [GeminiJs.renderContext, ht, hu, hts, jsOr]
    congr 3
  · intro q
    simp only [Rag.renderCtx, ht, hu, hts, jsOr]
    congr 3

theorem header_placeholder_amended_witness :
    GeminiJs.renderContext (Msg.mk (str "context") none none none none none
        (some (str "sum"))) =
      Turn.mk (str "user")
        (some (str "PAGE CONTEXT — Untitled (Unknown) — captured \n\n" ++
          (str "sum").take 3000)) ∧
      Rag.renderCtx (str "q") (Msg.mk (str "context") none none none none none
          (some (str "sum"))) =
        Turn.mk (str "user")
          (some (str "PAGE CONTEXT — Untitled () — captured \n\n" ++ (str "sum").take 6000)) :=
  ⟨(header_placeholder_amended _ rfl rfl rfl).1,
    (header_placeholder_amended _ rfl rfl rfl).2 (str "q")⟩

/-- Claim C10: the query-aware compiler tests availability of the full
    text by truthiness, not presence: when m.markdown is the empty string
    (not only when it is absent) the excerpt is the summary field
    truncated to 6000 characters, and the rendered entry is independent of
    the query, i.e. query-aware relevance extraction is never invoked for
    that turn. -/
theorem emptyMarkdown_uses_summary (q : Str) (m : Msg) (h : m.markdown = some []) :
    Rag.renderCtx q m = Turn.mk (str "user")
      (some (str "PAGE CONTEXT — " ++ jsOr m.title (str "Untitled") ++ str " (" ++
        jsOr m.url [] ++ str ") — captured " ++ jsOr m.timestamp [] ++ str "\n\n" ++
        (jsOr m.essentialMarkdown []).take 6000)) ∧
    ∀ q' : Str, Rag.renderCtx q' m = Rag.renderCtx q m := by
  have htr : truthy m.markdown = false := by rw [h]; rfl
  constructor
  · simp only [Rag.renderCtx, htr, Bool.false_eq_true, if_false]
  · intro q'
    simp only [Rag.renderCtx, htr, Bool.false_eq_true, if_false]

theorem emptyMarkdown_uses_summary_witness :
    Rag.renderCtx (str "query words") (Msg.mk (str "context") none (some (str "T"))
        (some (str "U")) (some (str "TS")) (some []) (some (str "sum"))) =
      Turn.mk (str "user")
        (some (str "PAGE CONTEXT — " ++ str "T" ++ str " (" ++ str "U" ++
          str ") — captured " ++ str "TS" ++ str "\n\n" ++ (str "sum").take 6000)) ∧
      Rag.renderCtx (str "other") (Msg.mk (str "context") none (some (str "T"))
          (some (str "U")) (some (str "TS")) (some []) (some (str "sum"))) =
        Rag.renderCtx (str "query words") (Msg.mk (str "context") none (some (str "T"))
          (some (str "U")) (some (str "TS")) (some []) (some (str "sum"))) :=
  ⟨(emptyMarkdown_uses_summary (str "query words") _ rfl).1,
    (emptyMarkdown_uses_summary (str "query words") _ rfl).2 (str "other")⟩

/-- Claim C9: parseGeminiResponse raises — returns a distinct error value,
    never a result — when there are no candidates (absent or empty array),
    when the first candidate has no content parts (absent content, absent
    parts, or an empty parts array), and when the first part's text is
    absent or empty; the five raised messages are pairwise distinct; with
    at least one candidate whose first part carries non-empty text it
    returns exactly that text, and it never returns an empty string. -/
theorem parseGeminiResponse_conditions :
    (∀ r : GResponse, r.candidates = none ∨ r.candidates = some [] →
      ParseG.parseGeminiResponse r = Except.error ParseG.M_CAND_FMT ∨
        ParseG.parseGeminiResponse r = Except.error ParseG.M_NO_RESP) ∧
    (∀ (r : GResponse) (cand : GCandidate) (cs : List GCandidate),
      r.candidates = some (cand :: cs) →
      (cand.content = none ∨ ∃ ct, cand.content = some ct ∧ ct.parts = none) →
      ParseG.parseGeminiResponse r = Except.error ParseG.M_CAND_PARTS) ∧
    (∀ (r : GResponse) (cand : GCandidate) (cs : List GCandidate) (ct : GContent),
      r.candidates = some (cand :: cs) → cand.content = some ct → ct.parts = some [] →
      ParseG.parseGeminiResponse r = Except.error ParseG.M_NO_PARTS) ∧
    (∀ (r : GResponse) (cand : GCandidate) (cs : List GCandidate) (ct : GContent)
      (p : GPart) (ps : List GPart),
      r.candidates = some (cand :: cs) → cand.content = some ct →
      ct.parts = some (p :: ps) → (p.text = none ∨ p.text = some []) →
      ParseG.parseGeminiResponse r = Except.error ParseG.M_NO_TEXT) ∧
    (∀ (r : GResponse) (cand : GCandidate) (cs : List GCandidate) (ct : GContent)
      (p : GPart) (ps : List GPart) (t : Str),
      r.candidates = some (cand :: cs) → cand.content = some ct →
      ct.parts = some (p :: ps) → p.text = some t → t ≠ [] →
      ParseG.parseGeminiResponse r = Except.ok t) ∧
    List.Pairwise (fun a b => a ≠ b)
      [ParseG.M_CAND_FMT, ParseG.M_NO_RESP, ParseG.M_CAND_PARTS, ParseG.M_NO_PARTS,
        ParseG.M_NO_TEXT] ∧
    (∀ (r : GResponse) (t : Str), ParseG.parseGeminiResponse r = Except.ok t → t ≠ []) := by
  refine ⟨?_, ?_, ?_, ?_, ?_, by decide, ?_⟩
  · intro r h
    rcases h with h | h
    · left; simp [ParseG.parseGeminiResponse, h]
    · right; simp [ParseG.parseGeminiResponse, h]
  · intro r cand cs hr h
    rcases h with h | ⟨ct, hct, hp⟩
    · simp [ParseG.parseGeminiResponse, hr, h]
    · simp [ParseG.parseGeminiResponse, hr, hct, hp]
  · intro r cand cs ct hr hct hp
    simp [ParseG.parseGeminiResponse, hr, hct, hp]
  · intro r cand cs ct p ps hr hct hp h
    rcases h with h | h
    · simp [ParseG.parseGeminiResponse, hr, hct, hp, h]
    · simp [ParseG.parseGeminiResponse, hr, hct, hp, h]
  · intro r cand cs ct p ps t hr hct hp htx hne
    simp [ParseG.parseGeminiResponse, hr, hct, hp, htx, hne]
  · intro r t h
    unfold ParseG.parseGeminiResponse at h
    obtain ⟨cands⟩ := r
    cases cands with
    | none => cases h
    | some l =>
      cases l with
      | nil => cases h
      | cons cand cs =>
        obtain ⟨ct⟩ := cand
        cases ct with
        | none => cases h
        | some content =>
          obtain ⟨parts⟩ := content
          cases parts with
          | none => cases h
          | some ps =>
            cases ps with
            | nil => cases h
            | cons p ps =>
              obtain ⟨tx⟩ := p
              cases tx with
              | none => cases h
              | some t0 =>
                have h' : (if t0 = [] then (Except.error ParseG.M_NO_TEXT : Except Str Str)
                    else Except.ok t0) = Except.ok t := h
                by_cases ht0 : t0 = []
                · rw [if_pos ht0] at h'; cases h'
                · rw [if_neg ht0] at h'
                  cases h'
                  exact ht0

theorem parseGeminiResponse_conditions_witness :
    (ParseG.parseGeminiResponse (GResponse.mk none) = Except.error ParseG.M_CAND_FMT ∨
      ParseG.parseGeminiResponse (GResponse.mk none) = Except.error ParseG.M_NO_RESP) ∧
    ParseG.parseGeminiResponse (GResponse.mk (some [GCandidate.mk none])) =
      Except.error ParseG.M_CAND_PARTS ∧
    ParseG.parseGeminiResponse
        (GResponse.mk (some [GCandidate.mk (some (GContent.mk (some [GPart.mk (some (str "hi"))])))])) =
      Except.ok (str "hi") :=
  ⟨parseGeminiResponse_conditions.1 _ (Or.inl rfl),
    parseGeminiResponse_conditions.2.1 _ _ _ rfl (Or.inl rfl),
    parseGeminiResponse_conditions.2.2.2.2.1 _ _ _ _ _ _ _ rfl rfl rfl rfl (by decide)⟩

example : extractTerms (str "What does CK_LOCKMUTEX mean?") =
    [str "what", str "does", str "ck_lockmutex", str "mean"] := by decide
example : extractTerms (str "foo foo") = [str "foo", str "foo"] := by decide
example : extractTerms (str "e-mail ab ..x") = [str "e-mail"] := by decide
example : extractTerms (str "abc-") = [str "abc"] := by decide
example : pickRelevantSnippets (str "abc") (str "abc") ⟨1000, 4⟩ = str "abc\n" := by decide
example : pickRelevantSnippets (str "") (str "hello world") ⟨1000, 4⟩ = str "hell" := by decide
